import Mathlib

/-!
Verification of the admin handler of the synapse repository
(`synapse/handlers/admin.py`): the token-scoped authorization gate
(`validate_admin_token`, `set_permission_for_token`) and the user-data
exporter (`export_user_data`) with its backward-extremity tracking.

The Python code is embedded shallowly:

* Python byte strings become `List Char` (one `Char` per byte value);
  `bytes.split(b" ")` becomes `splitOnSpace`, `bytes.decode("ascii")`
  becomes `decodeAscii` (fails on a byte ≥ 128, like Python).
* Python sets of strings become `Finset String`; the two tracking dicts
  `event_to_unseen_prevs` / `unseen_to_child_events` become total maps
  `String → Finset String` (an absent key is the empty set) plus an
  insertion-ordered key list for `event_to_unseen_prevs`.
* Exceptions (`SynapseError(403)`, `MissingClientTokenError`,
  `UnicodeDecodeError`, `ValueError`, `KeyError`) become
  `Except AdminError`.
* The external storage/visibility collaborators become an explicit
  `Store` record of functions; the sink (`ExfiltrationWriter`) calls are
  recorded as a trace of `SinkCall` values, in call order.
-/

namespace Synapse

/-- Membership constants from `synapse.api.constants`, as used by
`export_user_data` (`membership_list=(JOIN, LEAVE, BAN, INVITE)`). -/
inductive Membership
  | JOIN
  | LEAVE
  | BAN
  | INVITE
deriving DecidableEq, Repr

/-- Modelled from the spec: `TokenState` lives in
`synapse/storage/data_stores/main/admin.py`, which is not among the
analysed sources; the spec's data model requires at least `EXISTS` and
`NON_EXISTANT`, distinguishing "token unknown" from "token known but
unauthorized". -/
inductive TokenState
  | EXISTS
  | NON_EXISTANT
deriving DecidableEq, Repr

/-- Modelled from the spec: the permission ruleset returned by the
external permission store (`store.get_permissions_for_token`, not among
the analysed sources).  Per the spec's data model it is, for a token, a
mapping from (endpoint identifier, action) to a boolean allow/deny,
together with the token's existence state; the mapping is modelled as a
total function. -/
structure TokenRules where
  token_state : TokenState
  permissions : String → String → Bool

/-- The exceptions raised by the handler code: `SynapseError(403,
"Forbidden", errcode=Codes.FORBIDDEN)`, `MissingClientTokenError(msg)`,
Python's `UnicodeDecodeError` (from `bytes.decode("ascii")`),
`ValueError` (from `set_permission_for_token`) and `KeyError` (from a
dict subscript on a missing key). -/
inductive AdminError
  | forbidden
  | missingClientToken (msg : String)
  | unicodeDecodeError
  | valueError (msg : String)
  | keyError
deriving DecidableEq, Repr

/-- Python `bytes.split(b" ")`: split on every occurrence of the single
separator, keeping empty parts; the result is never empty. -/
def splitOnSpace : List Char → List (List Char)
  | [] => [[]]
  | c :: cs =>
    match splitOnSpace cs with
    | [] => [[]]
    | p :: ps => if c = ' ' then [] :: p :: ps else (c :: p) :: ps

/-- Python `bytes.decode("ascii")`: succeeds exactly when every byte is
below 128, raising `UnicodeDecodeError` otherwise. -/
def decodeAscii (bs : List Char) : Option String :=
  if bs.all (fun c => decide (c.toNat < 128)) then some (String.mk bs) else none

/-- Lines 63–73 of `validate_admin_token`: resolve the token's ruleset,
short-circuit to `False` for a non-existent token when
`raise_if_missing` is false, then consult
`token_rules.permissions[servlet.PERMISSION_CODE][action]`. -/
def check_token (store : String → TokenRules) (code method : String)
    (raise_if_missing : Bool) (token : String) : Except AdminError Bool :=
  let token_rules := store token
  if raise_if_missing = false ∧ token_rules.token_state = TokenState.NON_EXISTANT then
    Except.ok false
  else if token_rules.permissions code method = true then
    Except.ok true
  else
    Except.error AdminError.forbidden

/-- `AdminHandler.validate_admin_token`.  `permission_code` is
`servlet.PERMISSION_CODE`, `auth_headers` is
`request.requestHeaders.getRawHeaders(b"Authorization")` (the empty list
standing for both `None` and `[]`, which Python's `if not auth_headers`
treats alike), `method` is the request method (already an ASCII
string). -/
def validate_admin_token (store : String → TokenRules) (permission_code : Option String)
    (auth_headers : List (List Char)) (method : String) (raise_if_missing : Bool) :
    Except AdminError Bool :=
  match permission_code with
  | none => Except.error AdminError.forbidden
  | some code =>
    if auth_headers = [] then
      Except.error (AdminError.missingClientToken "Missing Authorization header.")
    else if 1 < auth_headers.length then
      Except.error (AdminError.missingClientToken "Too many Authorization headers.")
    else
      let parts := splitOnSpace (auth_headers.headD [])
      if parts.headD [] = "Bearer".data ∧ parts.length = 2 then
        match decodeAscii (parts.getD 1 []) with
        | some token => check_token store code method raise_if_missing token
        | none => Except.error AdminError.unicodeDecodeError
      else
        Except.error (AdminError.missingClientToken "Invalid Authorization header.")

/-- `AdminHandler.set_permission_for_token`: reject an action outside
{GET, PUT, POST, DELETE} with `ValueError` before touching the store,
otherwise delegate to `store.set_permission_for_token` and return its
result unchanged. -/
def set_permission_for_token (store_set : String → String → String → Bool → Bool)
    (admin_token endpoint action : String) (allowed : Bool) : Except AdminError Bool :=
  if action ∉ (["GET", "PUT", "POST", "DELETE"] : List String) then
    Except.error (AdminError.valueError (action ++ " is an invalid action"))
  else
    Except.ok (store_set admin_token endpoint action allowed)

/-- The event fields `export_user_data` reads: `event_id`,
`prev_event_ids()`, the stream position, and
`unsigned["invite_room_state"]` (an optional key of the unsigned
metadata, so an `Option`).  The stream position also serves as the
`internal_metadata.after` pagination cursor of the event (the token
pointing just after it in the room stream). -/
structure Event where
  event_id : String
  prev_event_ids : List String
  stream_ordering : Nat
  invite_room_state : Option (List ((String × String) × String))
deriving DecidableEq, Repr

/-- One row of `get_rooms_for_user_where_membership_is`: the user's
current/last membership record in a room. -/
structure MembershipRecord where
  room_id : String
  membership : Membership
  event_id : String
  stream_ordering : Nat
deriving DecidableEq, Repr

/-- The state map returned by `state_store.get_state_for_event`
(`dict[tuple[str, str], FrozenEvent]`), with event content abstracted
to a string. -/
abbrev StateMap := List ((String × String) × String)

/-- Modelled from the spec: the external storage/query service and
event-visibility filter consumed by `export_user_data`, as a record of
functions for a fixed user: the membership rows, the set of rooms the
user has actually been in, `did_forget`, `get_event`,
`get_room_max_stream_ordering`, the per-room event timeline that
`paginate_room_events` pages over (ordered by stream position),
`get_state_for_event`, and the visibility predicate underlying
`filter_events_for_client`. -/
structure Store where
  rooms : List MembershipRecord
  rooms_user_has_been_in : List String
  did_forget : String → Bool
  get_event : String → Option Event
  room_max_stream_ordering : Nat
  timeline : String → List Event
  state_for_event : String → StateMap
  vis : Event → Bool

/-- One call made on the `ExfiltrationWriter` sink. -/
inductive SinkCall
  | write_events (room_id : String) (events : List Event)
  | write_state (room_id : String) (event_id : String) (state : StateMap)
  | write_invite (room_id : String) (event : Event) (state : List ((String × String) × String))
deriving DecidableEq, Repr

/-- Whether an event falls in the open-below/closed-above pagination
window `(fromK, toK]` of stream positions. -/
def inWindow (fromK toK : Nat) (e : Event) : Bool :=
  decide (fromK < e.stream_ordering) && decide (e.stream_ordering ≤ toK)

/-- Modelled from the spec: `store.paginate_room_events(room_id,
from_key, to_key, limit=100, direction="f")` of the external
RoomTimelineSource — the first `limit` timeline events whose stream
position lies in the window `(fromK, toK]`. -/
def paginate_room_events (tl : List Event) (fromK toK : Nat) (limit : Nat) : List Event :=
  (tl.filter (inWindow fromK toK)).take limit

/-- The number of timeline events in the pagination window; the
decreasing measure of the pagination loop. -/
def windowCount (tl : List Event) (fromK toK : Nat) : Nat :=
  (tl.filter (inWindow fromK toK)).length

/-- The per-room extremity-tracking state of `export_user_data`:
`written_events`, the two dicts (total maps, absent key = `∅`), and the
insertion order of the keys of `event_to_unseen_prevs` (Python dicts
iterate in insertion order, which lines 302–306 rely on). -/
structure TrackState where
  written_events : Finset String
  event_to_unseen_prevs : String → Finset String
  prevs_keys : List String
  unseen_to_child_events : String → Finset String

/-- The empty tracking state initialised for each room (lines 247–260). -/
def initTrackState : TrackState :=
  { written_events := ∅
    event_to_unseen_prevs := fun _ => ∅
    prevs_keys := []
    unseen_to_child_events := fun _ => ∅ }

/-- Lines 282–288: `unseen_events = set(event.prev_event_ids()) -
written_events`; if non-empty, record them for this event and add the
event as a child of each unseen predecessor. -/
def addUnseen (st : TrackState) (ev : Event) : TrackState :=
  if ev.prev_event_ids.toFinset \ st.written_events = ∅ then st
  else
    { st with
      event_to_unseen_prevs := fun k =>
        if k = ev.event_id then ev.prev_event_ids.toFinset \ st.written_events
        else st.event_to_unseen_prevs k
      prevs_keys :=
        if ev.event_id ∈ st.prevs_keys then st.prevs_keys
        else st.prevs_keys ++ [ev.event_id]
      unseen_to_child_events := fun u =>
        if u ∈ ev.prev_event_ids.toFinset \ st.written_events then
          insert ev.event_id (st.unseen_to_child_events u)
        else st.unseen_to_child_events u }

/-- Lines 292–293: `for child_id in
unseen_to_child_events.pop(event.event_id, []):
event_to_unseen_prevs[child_id].discard(event.event_id)`. -/
def resolveChildren (st : TrackState) (ev : Event) : TrackState :=
  { st with
    event_to_unseen_prevs := fun c =>
      if c ∈ st.unseen_to_child_events ev.event_id then
        (st.event_to_unseen_prevs c).erase ev.event_id
      else st.event_to_unseen_prevs c
    unseen_to_child_events := fun k =>
      if k = ev.event_id then ∅ else st.unseen_to_child_events k }

/-- The body of the `for event in events` loop (lines 279–295): update
the two dicts, then add the event to `written_events`. -/
def processEvent (st : TrackState) (ev : Event) : TrackState :=
  let st2 := resolveChildren (addUnseen st ev) ev
  { st2 with written_events := insert ev.event_id st2.written_events }

/-- The whole `for event in events` loop over one filtered page. -/
def processEvents (st : TrackState) (events : List Event) : TrackState :=
  events.foldl processEvent st

/-- The `while True` pagination loop (lines 265–299), with an explicit
fuel argument (the loop in the source has no syntactic bound; the
`paginationLoop_flag` theorem shows any fuel above `windowCount` is
never exhausted, the final `Bool` being `true` exactly when the loop
ended by fetching an empty page).  Each iteration fetches a page, stops if it is
empty, otherwise advances `from_key` to the cursor after the last
*unfiltered* event, filters the page for visibility, records the
`write_events` call (the filtered page, appended to `trace`), and folds
the extremity tracking over the filtered events. -/
def paginationLoop (tl : List Event) (vis : Event → Bool) (toK : Nat) :
    Nat → Nat → TrackState → List (List Event) →
    TrackState × List (List Event) × Bool
  | 0, _, st, trace => (st, trace, false)
  | fuel + 1, fromK, st, trace =>
    if h : paginate_room_events tl fromK toK 100 = [] then (st, trace, true)
    else
      paginationLoop tl vis toK fuel
        ((paginate_room_events tl fromK toK 100).getLast h).stream_ordering
        (processEvents st ((paginate_room_events tl fromK toK 100).filter vis))
        (trace ++ [(paginate_room_events tl fromK toK 100).filter vis])

/-- Lines 302–306: the extremities, i.e. the keys of
`event_to_unseen_prevs` (in insertion order) whose set of unseen prev
events is non-empty.  Lines 307–309 re-check non-emptiness, which is
redundant since nothing mutates the dict there. -/
def extremityIds (st : TrackState) : List String :=
  st.prevs_keys.filter (fun event_id => decide (st.event_to_unseen_prevs event_id ≠ ∅))

/-- Lines 239–245: the upper pagination bound — the room's current
maximum stream ordering for a JOIN membership, the membership row's own
`stream_ordering` otherwise.  (`from_key = RoomStreamToken(0, 0)` and
`to_key = RoomStreamToken(None, stream_ordering)` become the positions
`0` and `stream_ordering`.) -/
def room_to_key (s : Store) (r : MembershipRecord) : Nat :=
  if r.membership = Membership.JOIN then s.room_max_stream_ordering else r.stream_ordering

/-- The full pagination phase of one room's traversal, started from
position 0 with fresh tracking state and fuel strictly above the
window size (shown sufficient by `paginationLoop_flag`). -/
def room_traversal (s : Store) (r : MembershipRecord) :
    TrackState × List (List Event) × Bool :=
  paginationLoop (s.timeline r.room_id) s.vis (room_to_key s r)
    (windowCount (s.timeline r.room_id) 0 (room_to_key s r) + 1) 0 initTrackState []

/-- The sink calls of one room's traversal branch: one `write_events`
per fetched non-empty page (lines 276, in fetch order), then one
`write_state` per extremity (lines 307–311). -/
def traversal_calls (s : Store) (r : MembershipRecord) : List SinkCall :=
  ((room_traversal s r).2.1).map (fun evs => SinkCall.write_events r.room_id evs) ++
    (extremityIds (room_traversal s r).1).map
      (fun event_id => SinkCall.write_state r.room_id event_id (s.state_for_event event_id))

/-- Lines 217–311: the handling of one membership record — skip a
forgotten room; for a room the user has not been in, write the invite
(if the membership is INVITE and the invite event is found, reading
`invite.unsigned["invite_room_state"]`, a `KeyError` if absent);
otherwise run the pagination traversal. -/
def export_room (s : Store) (r : MembershipRecord) : Except AdminError (List SinkCall) :=
  if s.did_forget r.room_id = true then Except.ok []
  else if r.room_id ∉ s.rooms_user_has_been_in then
    (if r.membership = Membership.INVITE then
      match s.get_event r.event_id with
      | some invite =>
        match invite.invite_room_state with
        | some invited_state =>
          Except.ok [SinkCall.write_invite r.room_id invite invited_state]
        | none => Except.error AdminError.keyError
      | none => Except.ok []
    else Except.ok [])
  else Except.ok (traversal_calls s r)

/-- The `for index, room in enumerate(rooms)` loop of
`export_user_data`, accumulating the sink-call trace; an exception in
one room aborts the export. -/
def export_rooms (s : Store) : List MembershipRecord → List SinkCall →
    Except AdminError (List SinkCall)
  | [], acc => Except.ok acc
  | r :: rest, acc =>
    match export_room s r with
    | Except.ok calls => export_rooms s rest (acc ++ calls)
    | Except.error e => Except.error e

/-- `AdminHandler.export_user_data`: the full sequence of sink calls,
room by room in the order the store returned the membership rows (the
value of `writer.finished()` is opaque; the observable behaviour is the
call trace). -/
def export_user_data (s : Store) : Except AdminError (List SinkCall) :=
  export_rooms s s.rooms []

/-- The invariants tying the extremity-tracking state to the list `L`
of events processed so far (in processing order): `written_events` is
exactly the ids of `L`; the two dicts index each other both ways; the
recorded unseen prevs of a processed event are its prev events minus
everything written; unprocessed ids have no entry; and every id with a
non-empty entry is a recorded key. -/
structure GoodState (L : List Event) (st : TrackState) : Prop where
  written_eq : st.written_events = (L.map Event.event_id).toFinset
  bidir : ∀ a b, b ∈ st.event_to_unseen_prevs a ↔ a ∈ st.unseen_to_child_events b
  prevs_eq : ∀ e, e ∈ L →
    st.event_to_unseen_prevs e.event_id = e.prev_event_ids.toFinset \ st.written_events
  prevs_unprocessed : ∀ x, x ∉ L.map Event.event_id → st.event_to_unseen_prevs x = ∅
  keys_complete : ∀ x, st.event_to_unseen_prevs x ≠ ∅ → x ∈ st.prevs_keys

/-! ### Concrete fixtures used by the witness and counterexample theorems -/

/-- A ruleset store that knows every token and allows everything. -/
def allowRules : String → TokenRules :=
  fun _ => { token_state := TokenState.EXISTS, permissions := fun _ _ => true }

/-- A ruleset store for which every token is non-existent and no rule
grants access. -/
def missingRules : String → TokenRules :=
  fun _ => { token_state := TokenState.NON_EXISTANT, permissions := fun _ _ => false }

/-- A three-event chain `e1 ← e2 ← e3` (each event's single prev is the
one before it). -/
def demoE1 : Event := { event_id := "e1", prev_event_ids := [], stream_ordering := 1, invite_room_state := none }

/-- Second event of the demo chain. -/
def demoE2 : Event := { event_id := "e2", prev_event_ids := ["e1"], stream_ordering := 2, invite_room_state := none }

/-- Third event of the demo chain. -/
def demoE3 : Event := { event_id := "e3", prev_event_ids := ["e2"], stream_ordering := 3, invite_room_state := none }

/-- The JOIN membership row of the demo room. -/
def demoRoom : MembershipRecord :=
  { room_id := "r1", membership := Membership.JOIN, event_id := "m1", stream_ordering := 0 }

/-- A store for room `r1` holding the chain `e1, e2, e3`, whose
visibility filter drops `e1`: `e2` then ends up a reported extremity. -/
def demoStore : Store :=
  { rooms := [demoRoom]
    rooms_user_has_been_in := ["r1"]
    did_forget := fun _ => false
    get_event := fun _ => none
    room_max_stream_ordering := 10
    timeline := fun _ => [demoE1, demoE2, demoE3]
    state_for_event := fun _ => []
    vis := fun e => decide (e.event_id ≠ "e1") }

/-- A store whose visibility filter drops everything: the one fetched
page produces a `write_events` call with an empty event list. -/
def emptyVisStore : Store :=
  { demoStore with timeline := fun _ => [demoE1], vis := fun _ => false }

/-- A store where the user has forgotten every room. -/
def forgetStore : Store :=
  { rooms := []
    rooms_user_has_been_in := []
    did_forget := fun _ => true
    get_event := fun _ => none
    room_max_stream_ordering := 0
    timeline := fun _ => []
    state_for_event := fun _ => []
    vis := fun _ => true }

/-- A membership row for the forgotten-room witness. -/
def forgetRoom : MembershipRecord :=
  { room_id := "r9", membership := Membership.JOIN, event_id := "m9", stream_ordering := 3 }

/-- An invite event whose unsigned metadata carries `invite_room_state`. -/
def inviteEvent : Event :=
  { event_id := "inv1", prev_event_ids := [], stream_ordering := 5
    invite_room_state := some [(("m.room.create", ""), "creator")] }

/-- The INVITE membership row of a room the user was never in. -/
def inviteRoom : MembershipRecord :=
  { room_id := "r2", membership := Membership.INVITE, event_id := "inv1", stream_ordering := 5 }

/-- A store holding `inviteEvent` for a bare invite. -/
def inviteStore : Store :=
  { rooms := [inviteRoom]
    rooms_user_has_been_in := []
    did_forget := fun _ => false
    get_event := fun eid => if eid = "inv1" then some inviteEvent else none
    room_max_stream_ordering := 10
    timeline := fun _ => []
    state_for_event := fun _ => []
    vis := fun _ => true }

/-- The same invite event but with no `invite_room_state` key in its
unsigned metadata. -/
def inviteEventNoState : Event :=
  { event_id := "inv1", prev_event_ids := [], stream_ordering := 5, invite_room_state := none }

/-- `inviteStore` but storing the stateless invite event. -/
def inviteStoreNoState : Store :=
  { inviteStore with get_event := fun eid => if eid = "inv1" then some inviteEventNoState else none }

/-! ### The token authorizer -/

theorem splitOnSpace_ne_nil (bs : List Char) : splitOnSpace bs ≠ [] := by
  cases bs with
  | nil => simp [splitOnSpace]
  | cons c cs =>
    cases h : splitOnSpace cs with
    | nil => simp [splitOnSpace, h]
    | cons p ps =>
      simp only [splitOnSpace, h]
      split <;> simp

theorem check_token_ne_missingClientToken (store : String → TokenRules)
    (code method : String) (rim : Bool) (token msg : String) :
    check_token store code method rim token ≠
      Except.error (AdminError.missingClientToken msg) := by
  show (if rim = false ∧ (store token).token_state = TokenState.NON_EXISTANT then
      Except.ok false
    else if (store token).permissions code method = true then Except.ok true
    else Except.error AdminError.forbidden) ≠
      Except.error (AdminError.missingClientToken msg)
  split
  · simp
  · split <;> simp

theorem validate_single_wellformed (store : String → TokenRules) (code : String)
    (hv t : List Char) (method : String) (rim : Bool)
    (ht : splitOnSpace hv = ["Bearer".data, t]) :
    validate_admin_token store (some code) [hv] method rim =
      match decodeAscii t with
      | some token => check_token store code method rim token
      | none => Except.error AdminError.unicodeDecodeError := by
  simp [validate_admin_token, ht]

theorem validate_single_badshape (store : String → TokenRules) (code : String)
    (hv : List Char) (method : String) (rim : Bool)
    (ht : ∀ t, splitOnSpace hv ≠ ["Bearer".data, t]) :
    validate_admin_token store (some code) [hv] method rim =
      Except.error (AdminError.missingClientToken "Invalid Authorization header.") := by
  simp only [validate_admin_token, List.headD_cons]
  rw [if_neg (by simp), if_neg (by simp), if_neg]
  rintro ⟨h1, h2⟩
  obtain ⟨a, b, hab⟩ := List.length_eq_two.mp h2
  rw [hab] at h1
  simp only [List.headD_cons] at h1
  exact ht b (by rw [hab, h1])

/-- C3: if the target servlet declares no permission code
(`PERMISSION_CODE is None`), `validate_admin_token` fails with
`Forbidden` before examining any header or token, whatever the
credential and whatever `raise_if_missing`. -/
theorem c3_no_permission_code_forbidden (store : String → TokenRules)
    (auth_headers : List (List Char)) (method : String) (raise_if_missing : Bool) :
    validate_admin_token store none auth_headers method raise_if_missing =
      Except.error AdminError.forbidden := rfl

/-- C2: for a request carrying a well-formed Bearer token whose
ruleset has state `NON_EXISTANT` (and which, per the spec's guarantee
for non-existent tokens, grants nothing), `validate_admin_token`
returns `false` when `raise_if_missing` is false, and fails with the
`Forbidden` error (not some other exception) when it is true. -/
theorem c2_nonexistent_token_never_granted (store : String → TokenRules)
    (code : String) (hv t : List Char) (method : String)
    (hshape : splitOnSpace hv = ["Bearer".data, t])
    (hascii : t.all (fun c => decide (c.toNat < 128)) = true)
    (hstate : (store (String.mk t)).token_state = TokenState.NON_EXISTANT)
    (hperm : ∀ c a, (store (String.mk t)).permissions c a = false) :
    validate_admin_token store (some code) [hv] method false = Except.ok false ∧
    validate_admin_token store (some code) [hv] method true =
      Except.error AdminError.forbidden := by
  rw [validate_single_wellformed store code hv t method false hshape,
    validate_single_wellformed store code hv t method true hshape]
  simp [decodeAscii, hascii, check_token, hstate, hperm]

/-- Witness for C2 at a concrete store and header. -/
theorem c2_witness :
    splitOnSpace "Bearer t".data = ["Bearer".data, "t".data] ∧
    (missingRules (String.mk "t".data)).token_state = TokenState.NON_EXISTANT ∧
    validate_admin_token missingRules (some "users") ["Bearer t".data] "GET" false =
      Except.ok false ∧
    validate_admin_token missingRules (some "users") ["Bearer t".data] "GET" true =
      Except.error AdminError.forbidden :=
  ⟨by decide, rfl,
    c2_nonexistent_token_never_granted missingRules "users" "Bearer t".data "t".data "GET"
      (by decide) (by decide) rfl (fun _ _ => rfl)⟩

/-- C4 (amended): with a permission code present, `validate_admin_token`
fails with `MissingClientTokenError` exactly when the Authorization
header is malformed (zero headers, more than one header, or a single
header that does not split into exactly `Bearer` plus one token part);
for a single well-formed header whose token part is ASCII, parsing
succeeds and the extracted token is handed to the permission check.
(The amendment: a well-formed header whose token part holds a byte ≥
128 is not a `MissingClientTokenError` — the claim's "exactly" — but
neither is the token extracted: `parts[1].decode("ascii")` raises
`UnicodeDecodeError`, see `c4_counterexample`.) -/
theorem c4_malformed_header_iff (store : String → TokenRules) (code : String)
    (auth_headers : List (List Char)) (method : String) (rim : Bool) :
    ((∃ msg, validate_admin_token store (some code) auth_headers method rim =
        Except.error (AdminError.missingClientToken msg)) ↔
      (auth_headers = [] ∨ 1 < auth_headers.length ∨
        ∃ hv, auth_headers = [hv] ∧ ∀ t, splitOnSpace hv ≠ ["Bearer".data, t])) ∧
    (∀ hv t, auth_headers = [hv] → splitOnSpace hv = ["Bearer".data, t] →
      t.all (fun c => decide (c.toNat < 128)) = true →
      validate_admin_token store (some code) auth_headers method rim =
        check_token store code method rim (String.mk t)) := by
  constructor
  · cases auth_headers with
    | nil =>
      apply iff_of_true
      · exact ⟨"Missing Authorization header.", rfl⟩
      · exact Or.inl rfl
    | cons hv rest =>
      cases rest with
      | nil =>
        by_cases hbp : ∃ t, splitOnSpace hv = ["Bearer".data, t]
        · obtain ⟨t, ht⟩ := hbp
          apply iff_of_false
          · rw [validate_single_wellformed store code hv t method rim ht]
            cases hd : decodeAscii t with
            | some token => simpa using check_token_ne_missingClientToken store code method rim token
            | none => simp
          · rintro (h | h | ⟨hv', hv'eq, hall⟩)
            · exact absurd h (by simp)
            · exact absurd h (by simp)
            · rw [List.cons.injEq] at hv'eq
              exact hall t (hv'eq.1 ▸ ht)
        · apply iff_of_true
          · exact ⟨"Invalid Authorization header.",
              validate_single_badshape store code hv method rim (fun t h => hbp ⟨t, h⟩)⟩
          · exact Or.inr (Or.inr ⟨hv, rfl, fun t h => hbp ⟨t, h⟩⟩)
      | cons hv2 rest2 =>
        apply iff_of_true
        · refine ⟨"Too many Authorization headers.", ?_⟩
          simp [validate_admin_token]
        · exact Or.inr (Or.inl (by simp))
  · intro hv t heq ht hascii
    subst heq
    rw [validate_single_wellformed store code hv t method rim ht]
    simp [decodeAscii, hascii]

/-- Counterexample for C4 as stated: the single header `Bearer é`
(0xE9 as a byte) is well-formed — two space-separated parts, the first
the literal `Bearer` — so the claim says parsing succeeds and the token
is extracted; the code instead raises `UnicodeDecodeError` at
`parts[1].decode("ascii")`, and no token reaches the permission check
(here the store would have granted access). -/
theorem c4_counterexample :
    splitOnSpace "Bearer é".data = ["Bearer".data, "é".data] ∧
    validate_admin_token allowRules (some "users") ["Bearer é".data] "GET" true =
      Except.error AdminError.unicodeDecodeError := by
  exact ⟨by decide, rfl⟩

/-- Witness for the amended C4 at a concrete well-formed header. -/
theorem c4_witness :
    splitOnSpace "Bearer tok".data = ["Bearer".data, "tok".data] ∧
    validate_admin_token allowRules (some "users") ["Bearer tok".data] "GET" true =
      check_token allowRules "users" "GET" true (String.mk "tok".data) :=
  ⟨by decide,
    (c4_malformed_header_iff allowRules "users" ["Bearer tok".data] "GET" true).2
      "Bearer tok".data "tok".data rfl (by decide) (by decide)⟩

/-- C5: `set_permission_for_token` rejects any action outside
{GET, PUT, POST, DELETE} with `ValueError`, with a result independent
of the store (the store's set operation is never consulted); for an
action inside the set it delegates to the store and returns its result
unchanged. -/
theorem c5_set_permission_action_validation :
    (∀ (store_set : String → String → String → Bool → Bool)
        (admin_token endpoint action : String) (allowed : Bool),
      action ∉ (["GET", "PUT", "POST", "DELETE"] : List String) →
      set_permission_for_token store_set admin_token endpoint action allowed =
        Except.error (AdminError.valueError (action ++ " is an invalid action"))) ∧
    (∀ (store_set : String → String → String → Bool → Bool)
        (admin_token endpoint action : String) (allowed : Bool),
      action ∈ (["GET", "PUT", "POST", "DELETE"] : List String) →
      set_permission_for_token store_set admin_token endpoint action allowed =
        Except.ok (store_set admin_token endpoint action allowed)) := by
  constructor
  · intro _ _ _ _ _ h
    simp [set_permission_for_token, h]
  · intro _ _ _ _ _ h
    simp [set_permission_for_token, h]

/-- Witness for C5: `PATCH` is rejected whatever the store would
answer; `GET` goes through to the store. -/
theorem c5_witness :
    set_permission_for_token (fun _ _ _ _ => true) "tok" "users" "PATCH" true =
      Except.error (AdminError.valueError ("PATCH" ++ " is an invalid action")) ∧
    set_permission_for_token (fun _ _ _ _ => true) "tok" "users" "GET" true =
      Except.ok true :=
  ⟨c5_set_permission_action_validation.1 (fun _ _ _ _ => true) "tok" "users" "PATCH" true
      (by decide),
    c5_set_permission_action_validation.2 (fun _ _ _ _ => true) "tok" "users" "GET" true
      (by decide)⟩

/-! ### The exporter: skipped and invite-only rooms -/

theorem export_room_rooms_update (s : Store) (L : List MembershipRecord)
    (r : MembershipRecord) : export_room { s with rooms := L } r = export_room s r := rfl

theorem export_rooms_rooms_update (s : Store) (L : List MembershipRecord) :
    ∀ (rs : List MembershipRecord) (acc : List SinkCall),
      export_rooms { s with rooms := L } rs acc = export_rooms s rs acc := by
  intro rs
  induction rs with
  | nil => intro acc; rfl
  | cons a t ih =>
    intro acc
    simp only [export_rooms, export_room_rooms_update]
    cases export_room s a with
    | ok calls => exact ih (acc ++ calls)
    | error e => rfl

theorem export_rooms_skip (s : Store) (r : MembershipRecord)
    (h : export_room s r = Except.ok []) (post : List MembershipRecord) :
    ∀ (pre : List MembershipRecord) (acc : List SinkCall),
      export_rooms s (pre ++ r :: post) acc = export_rooms s (pre ++ post) acc := by
  intro pre
  induction pre with
  | nil =>
    intro acc
    simp only [List.nil_append, export_rooms, h, List.append_nil]
  | cons a t ih =>
    intro acc
    simp only [List.cons_append, export_rooms]
    cases export_room s a with
    | ok calls => exact ih (acc ++ calls)
    | error e => rfl

/-- C6: a membership record whose room the user has forgotten produces
no sink calls at all, and the export of the remaining rooms is exactly
as if the record were absent from the list. -/
theorem c6_forgotten_room_skipped (s : Store) (r : MembershipRecord)
    (pre post : List MembershipRecord) (hf : s.did_forget r.room_id = true) :
    export_room s r = Except.ok [] ∧
    export_user_data { s with rooms := pre ++ r :: post } =
      export_user_data { s with rooms := pre ++ post } := by
  have h1 : export_room s r = Except.ok [] := by
    simp [export_room, hf]
  refine ⟨h1, ?_⟩
  calc export_user_data { s with rooms := pre ++ r :: post }
      = export_rooms s (pre ++ r :: post) [] :=
        export_rooms_rooms_update s (pre ++ r :: post) (pre ++ r :: post) []
    _ = export_rooms s (pre ++ post) [] := export_rooms_skip s r h1 post pre []
    _ = export_user_data { s with rooms := pre ++ post } :=
        (export_rooms_rooms_update s (pre ++ post) (pre ++ post) []).symm

/-- Witness for C6 at a concrete forgotten room. -/
theorem c6_witness :
    forgetStore.did_forget "r9" = true ∧
    export_room forgetStore forgetRoom = Except.ok [] ∧
    export_user_data { forgetStore with rooms := [] ++ forgetRoom :: [] } =
      export_user_data { forgetStore with rooms := ([] : List MembershipRecord) ++ [] } :=
  ⟨rfl, c6_forgotten_room_skipped forgetStore forgetRoom [] [] rfl⟩

/-- C7 (amended): for an INVITE membership in a room the user has not
been in and not forgotten, if the invite event is found in storage and
its unsigned metadata carries `invite_room_state`, the export makes
exactly one `write_invite` call for that room — with the invite event
and that state — and no `write_events` or `write_state` call.  (The
amendment: should the unsigned metadata lack the key, the subscript
`invite.unsigned["invite_room_state"]` raises `KeyError` instead and no
call is made, see `c7_counterexample`.) -/
theorem c7_invite_written (s : Store) (r : MembershipRecord) (invite : Event)
    (invited_state : List ((String × String) × String))
    (hf : s.did_forget r.room_id = false)
    (hb : r.room_id ∉ s.rooms_user_has_been_in)
    (hm : r.membership = Membership.INVITE)
    (he : s.get_event r.event_id = some invite)
    (hst : invite.invite_room_state = some invited_state) :
    export_room s r =
      Except.ok [SinkCall.write_invite r.room_id invite invited_state] := by
  simp [export_room, hf, hb, hm, he, hst]

/-- Counterexample for C7 as stated: the invite event is found in
storage, yet because its unsigned metadata has no `invite_room_state`
key the export fails with `KeyError` — there is no `write_invite`
call. -/
theorem c7_counterexample :
    inviteStoreNoState.get_event inviteRoom.event_id = some inviteEventNoState ∧
    export_room inviteStoreNoState inviteRoom = Except.error AdminError.keyError :=
  ⟨rfl, rfl⟩

/-- Witness for the amended C7 at a concrete bare invite. -/
theorem c7_witness :
    inviteStore.get_event inviteRoom.event_id = some inviteEvent ∧
    export_room inviteStore inviteRoom =
      Except.ok [SinkCall.write_invite "r2" inviteEvent
        [(("m.room.create", ""), "creator")]] :=
  ⟨rfl,
    c7_invite_written inviteStore inviteRoom inviteEvent
      [(("m.room.create", ""), "creator")] rfl (by decide) rfl rfl rfl⟩

/-! ### The pagination loop -/

theorem paginationLoop_zero (tl : List Event) (vis : Event → Bool) (toK fromK : Nat)
    (st : TrackState) (trace : List (List Event)) :
    paginationLoop tl vis toK 0 fromK st trace = (st, trace, false) := rfl

theorem paginationLoop_succ (tl : List Event) (vis : Event → Bool) (toK fuel fromK : Nat)
    (st : TrackState) (trace : List (List Event)) :
    paginationLoop tl vis toK (fuel + 1) fromK st trace =
      if h : paginate_room_events tl fromK toK 100 = [] then (st, trace, true)
      else
        paginationLoop tl vis toK fuel
          ((paginate_room_events tl fromK toK 100).getLast h).stream_ordering
          (processEvents st ((paginate_room_events tl fromK toK 100).filter vis))
          (trace ++ [(paginate_room_events tl fromK toK 100).filter vis]) := rfl

theorem length_filter_le_of_imp {α : Type} (p q : α → Bool)
    (himp : ∀ a, q a = true → p a = true) :
    ∀ l : List α, (l.filter q).length ≤ (l.filter p).length := by
  intro l
  induction l with
  | nil => simp
  | cons a t ih =>
    simp only [List.filter_cons]
    by_cases hq : q a = true
    · simp only [hq, himp a hq, if_true, List.length_cons]
      omega
    · have hq' : q a = false := by simpa using hq
      simp only [hq', Bool.false_eq_true, if_false]
      by_cases hp : p a = true
      · simp only [hp, if_true, List.length_cons]
        omega
      · have hp' : p a = false := by simpa using hp
        simp only [hp', Bool.false_eq_true, if_false]
        exact ih

theorem length_filter_lt_of_mem {α : Type} (p q : α → Bool)
    (himp : ∀ a, q a = true → p a = true) :
    ∀ (l : List α) (x : α), x ∈ l → p x = true → q x = false →
      (l.filter q).length < (l.filter p).length := by
  intro l
  induction l with
  | nil =>
    intro x hx
    exact absurd hx (List.not_mem_nil x)
  | cons a t ih =>
    intro x hx hpx hqx
    simp only [List.filter_cons]
    rcases List.mem_cons.mp hx with rfl | hxt
    · simp only [hqx, Bool.false_eq_true, if_false, hpx, if_true, List.length_cons]
      have := length_filter_le_of_imp p q himp t
      omega
    · by_cases hqa : q a = true
      · simp only [hqa, himp a hqa, if_true, List.length_cons]
        have := ih x hxt hpx hqx
        omega
      · have hqa' : q a = false := by simpa using hqa
        simp only [hqa', Bool.false_eq_true, if_false]
        by_cases hpa : p a = true
        · simp only [hpa, if_true, List.length_cons]
          have := ih x hxt hpx hqx
          omega
        · have hpa' : p a = false := by simpa using hpa
          simp only [hpa', Bool.false_eq_true, if_false]
          exact ih x hxt hpx hqx

theorem mem_paginate {tl : List Event} {fromK toK limit : Nat} {e : Event}
    (h : e ∈ paginate_room_events tl fromK toK limit) :
    e ∈ tl ∧ fromK < e.stream_ordering ∧ e.stream_ordering ≤ toK := by
  unfold paginate_room_events at h
  have h1 : e ∈ tl.filter (inWindow fromK toK) := (List.take_sublist _ _).subset h
  have h2 := List.mem_filter.mp h1
  have h3 := h2.2
  unfold inWindow at h3
  simp only [Bool.and_eq_true, decide_eq_true_eq] at h3
  exact ⟨h2.1, h3.1, h3.2⟩

theorem paginate_progress (tl : List Event) (fromK toK : Nat)
    (h : paginate_room_events tl fromK toK 100 ≠ []) :
    windowCount tl ((paginate_room_events tl fromK toK 100).getLast h).stream_ordering toK <
      windowCount tl fromK toK := by
  have hmem := mem_paginate (List.getLast_mem h)
  unfold windowCount
  apply length_filter_lt_of_mem (inWindow fromK toK)
    (inWindow ((paginate_room_events tl fromK toK 100).getLast h).stream_ordering toK)
    ?_ tl ((paginate_room_events tl fromK toK 100).getLast h) hmem.1 ?_ ?_
  · intro a ha
    unfold inWindow at ha ⊢
    simp only [Bool.and_eq_true, decide_eq_true_eq] at ha ⊢
    exact ⟨Nat.lt_trans hmem.2.1 ha.1, ha.2⟩
  · unfold inWindow
    simp only [Bool.and_eq_true, decide_eq_true_eq]
    exact ⟨hmem.2.1, hmem.2.2⟩
  · unfold inWindow
    simp

theorem getLast_of_getLast? {α : Type} {l : List α} {x : α}
    (h : l.getLast? = some x) (hne : l ≠ []) : l.getLast hne = x := by
  have h2 := List.getLast?_eq_getLast l hne
  rw [h] at h2
  exact (Option.some.inj h2).symm

theorem ne_nil_of_getLast? {α : Type} {l : List α} {x : α}
    (h : l.getLast? = some x) : l ≠ [] := by
  intro h0
  rw [h0] at h
  simp at h

theorem paginationLoop_step (tl : List Event) (vis : Event → Bool) (toK fuel fromK : Nat)
    (st : TrackState) (trace : List (List Event)) (l : Event)
    (hl : (paginate_room_events tl fromK toK 100).getLast? = some l) :
    paginationLoop tl vis toK (fuel + 1) fromK st trace =
      paginationLoop tl vis toK fuel l.stream_ordering
        (processEvents st ((paginate_room_events tl fromK toK 100).filter vis))
        (trace ++ [(paginate_room_events tl fromK toK 100).filter vis]) := by
  have hne := ne_nil_of_getLast? hl
  rw [paginationLoop_succ, dif_neg hne, getLast_of_getLast? hl hne]

theorem paginate_progress_of_getLast? (tl : List Event) (fromK toK : Nat) (l : Event)
    (hl : (paginate_room_events tl fromK toK 100).getLast? = some l) :
    windowCount tl l.stream_ordering toK < windowCount tl fromK toK := by
  have hne := ne_nil_of_getLast? hl
  have := paginate_progress tl fromK toK hne
  rwa [getLast_of_getLast? hl hne] at this

theorem paginationLoop_flag (tl : List Event) (vis : Event → Bool) (toK : Nat) :
    ∀ (fuel fromK : Nat) (st : TrackState) (trace : List (List Event)),
      windowCount tl fromK toK < fuel →
      (paginationLoop tl vis toK fuel fromK st trace).2.2 = true := by
  intro fuel
  induction fuel with
  | zero =>
    intro fromK st trace h
    exact absurd h (Nat.not_lt_zero _)
  | succ n ih =>
    intro fromK st trace h
    rw [paginationLoop_succ]
    by_cases hp : paginate_room_events tl fromK toK 100 = []
    · rw [dif_pos hp]
    · rw [dif_neg hp]
      apply ih
      have := paginate_progress tl fromK toK hp
      omega

/-- C8: the pagination loop stops exactly on an empty page — an empty
page returns immediately (whatever the relation of the cursor to the
upper bound), a non-empty page always recurses with the advanced
cursor — and since each non-empty fetch strictly shrinks the finite
remaining window, any fuel above the window size is never exhausted:
the loop is a terminating recursion ending with the empty-page signal
(final flag `true`). -/
theorem c8_pagination_termination :
    (∀ (tl : List Event) (vis : Event → Bool) (toK fuel fromK : Nat) (st : TrackState)
        (trace : List (List Event)),
      paginate_room_events tl fromK toK 100 = [] →
      paginationLoop tl vis toK (fuel + 1) fromK st trace = (st, trace, true)) ∧
    (∀ (tl : List Event) (vis : Event → Bool) (toK fuel fromK : Nat) (st : TrackState)
        (trace : List (List Event)) (l : Event),
      (paginate_room_events tl fromK toK 100).getLast? = some l →
      paginationLoop tl vis toK (fuel + 1) fromK st trace =
        paginationLoop tl vis toK fuel l.stream_ordering
          (processEvents st ((paginate_room_events tl fromK toK 100).filter vis))
          (trace ++ [(paginate_room_events tl fromK toK 100).filter vis])) ∧
    (∀ (tl : List Event) (vis : Event → Bool) (toK fuel fromK : Nat) (st : TrackState)
        (trace : List (List Event)),
      windowCount tl fromK toK < fuel →
      (paginationLoop tl vis toK fuel fromK st trace).2.2 = true) := by
  refine ⟨?_, ?_, ?_⟩
  · intro tl vis toK fuel fromK st trace h
    rw [paginationLoop_succ, dif_pos h]
  · intro tl vis toK fuel fromK st trace l hl
    exact paginationLoop_step tl vis toK fuel fromK st trace l hl
  · intro tl vis toK fuel fromK st trace h
    exact paginationLoop_flag tl vis toK fuel fromK st trace h

/-- Witness for C8: an empty room returns at once with the empty-page
flag; a one-event page recurses; fuel `windowCount + 1 = 2` suffices
for the one-event room. -/
theorem c8_witness :
    paginationLoop ([] : List Event) (fun _ => true) 5 (0 + 1) 0 initTrackState [] =
      (initTrackState, [], true) ∧
    paginationLoop [demoE1] demoStore.vis 5 (0 + 1) 0 initTrackState [] =
      paginationLoop [demoE1] demoStore.vis 5 0 demoE1.stream_ordering
        (processEvents initTrackState
          ((paginate_room_events [demoE1] 0 5 100).filter demoStore.vis))
        ([] ++ [(paginate_room_events [demoE1] 0 5 100).filter demoStore.vis]) ∧
    (paginationLoop [demoE1] demoStore.vis 5 2 0 initTrackState []).2.2 = true :=
  ⟨c8_pagination_termination.1 [] (fun _ => true) 5 0 0 initTrackState [] (by decide),
    c8_pagination_termination.2.1 [demoE1] demoStore.vis 5 0 0 initTrackState [] demoE1
      (by decide),
    c8_pagination_termination.2.2 [demoE1] demoStore.vis 5 2 0 initTrackState [] (by decide)⟩

/-- C10: each non-empty unfiltered page produces exactly one
`write_events` record — the filtered page, appended to the trace even
when filtering removed every event — while the cursor advances past the
last unfiltered event, strictly shrinking the remaining window (forward
progress); concretely, a room whose only event is invisible yields the
single sink call `write_events "r1" []` with an empty event list. -/
theorem c10_write_events_even_empty :
    (∀ (tl : List Event) (vis : Event → Bool) (toK fuel fromK : Nat) (st : TrackState)
        (trace : List (List Event)) (l : Event),
      (paginate_room_events tl fromK toK 100).getLast? = some l →
      (paginationLoop tl vis toK (fuel + 1) fromK st trace =
        paginationLoop tl vis toK fuel l.stream_ordering
          (processEvents st ((paginate_room_events tl fromK toK 100).filter vis))
          (trace ++ [(paginate_room_events tl fromK toK 100).filter vis])) ∧
      windowCount tl l.stream_ordering toK < windowCount tl fromK toK) ∧
    export_room emptyVisStore demoRoom = Except.ok [SinkCall.write_events "r1" []] := by
  refine ⟨?_, rfl⟩
  intro tl vis toK fuel fromK st trace l hl
  exact ⟨paginationLoop_step tl vis toK fuel fromK st trace l hl,
    paginate_progress_of_getLast? tl fromK toK l hl⟩

/-! ### The extremity-tracking invariants -/

theorem addUnseen_written (st : TrackState) (ev : Event) :
    (addUnseen st ev).written_events = st.written_events := by
  unfold addUnseen
  split <;> rfl

theorem addUnseen_prevs_ne (st : TrackState) (ev : Event) {k : String}
    (h : k ≠ ev.event_id) :
    (addUnseen st ev).event_to_unseen_prevs k = st.event_to_unseen_prevs k := by
  unfold addUnseen
  split
  · rfl
  · simp [h]

theorem addUnseen_prevs_self (st : TrackState) (ev : Event)
    (h0 : st.event_to_unseen_prevs ev.event_id = ∅) :
    (addUnseen st ev).event_to_unseen_prevs ev.event_id =
      ev.prev_event_ids.toFinset \ st.written_events := by
  unfold addUnseen
  split
  · rename_i h
    rw [h0, h]
  · simp

theorem addUnseen_children (st : TrackState) (ev : Event) (b : String) :
    (addUnseen st ev).unseen_to_child_events b =
      if b ∈ ev.prev_event_ids.toFinset \ st.written_events then
        insert ev.event_id (st.unseen_to_child_events b)
      else st.unseen_to_child_events b := by
  unfold addUnseen
  split
  · rename_i h
    rw [h]
    simp
  · rfl

theorem addUnseen_keys_superset (st : TrackState) (ev : Event) :
    ∀ k ∈ st.prevs_keys, k ∈ (addUnseen st ev).prevs_keys := by
  unfold addUnseen
  split
  · intro k hk
    exact hk
  · intro k hk
    show k ∈ if ev.event_id ∈ st.prevs_keys then st.prevs_keys
      else st.prevs_keys ++ [ev.event_id]
    split
    · exact hk
    · exact List.mem_append_left _ hk

theorem addUnseen_keys_self (st : TrackState) (ev : Event)
    (h : ev.prev_event_ids.toFinset \ st.written_events ≠ ∅) :
    ev.event_id ∈ (addUnseen st ev).prevs_keys := by
  unfold addUnseen
  rw [if_neg h]
  show ev.event_id ∈ if ev.event_id ∈ st.prevs_keys then st.prevs_keys
    else st.prevs_keys ++ [ev.event_id]
  split
  · assumption
  · simp

theorem addUnseen_bidir (st : TrackState) (ev : Event)
    (hb : ∀ a b, b ∈ st.event_to_unseen_prevs a ↔ a ∈ st.unseen_to_child_events b)
    (h0 : st.event_to_unseen_prevs ev.event_id = ∅) :
    ∀ a b, b ∈ (addUnseen st ev).event_to_unseen_prevs a ↔
      a ∈ (addUnseen st ev).unseen_to_child_events b := by
  intro a b
  rw [addUnseen_children]
  by_cases ha : a = ev.event_id
  · subst ha
    rw [addUnseen_prevs_self st ev h0]
    by_cases hbU : b ∈ ev.prev_event_ids.toFinset \ st.written_events
    · simp [hbU]
    · rw [if_neg hbU]
      constructor
      · intro h
        exact absurd h hbU
      · intro h
        have h2 := (hb ev.event_id b).mpr h
        rw [h0] at h2
        exact absurd h2 (Finset.not_mem_empty b)
  · rw [addUnseen_prevs_ne st ev ha]
    by_cases hbU : b ∈ ev.prev_event_ids.toFinset \ st.written_events
    · rw [if_pos hbU, Finset.mem_insert]
      constructor
      · intro h
        exact Or.inr ((hb a b).mp h)
      · rintro (rfl | h)
        · exact absurd rfl ha
        · exact (hb a b).mpr h
    · rw [if_neg hbU]
      exact hb a b

theorem resolveChildren_written (st : TrackState) (ev : Event) :
    (resolveChildren st ev).written_events = st.written_events := rfl

theorem resolveChildren_keys (st : TrackState) (ev : Event) :
    (resolveChildren st ev).prevs_keys = st.prevs_keys := rfl

theorem resolveChildren_children (st : TrackState) (ev : Event) (b : String) :
    (resolveChildren st ev).unseen_to_child_events b =
      if b = ev.event_id then ∅ else st.unseen_to_child_events b := rfl

theorem resolveChildren_prevs (st : TrackState) (ev : Event)
    (hb : ∀ a b, b ∈ st.event_to_unseen_prevs a ↔ a ∈ st.unseen_to_child_events b)
    (a : String) :
    (resolveChildren st ev).event_to_unseen_prevs a =
      (st.event_to_unseen_prevs a).erase ev.event_id := by
  show (if a ∈ st.unseen_to_child_events ev.event_id then
      (st.event_to_unseen_prevs a).erase ev.event_id
    else st.event_to_unseen_prevs a) = _
  split
  · rfl
  · rename_i h
    exact (Finset.erase_eq_of_not_mem (fun hm => h ((hb a ev.event_id).mp hm))).symm

theorem processEvent_written (st : TrackState) (ev : Event) :
    (processEvent st ev).written_events = insert ev.event_id st.written_events := by
  show insert ev.event_id (resolveChildren (addUnseen st ev) ev).written_events = _
  rw [resolveChildren_written, addUnseen_written]

theorem processEvent_keys (st : TrackState) (ev : Event) :
    (processEvent st ev).prevs_keys = (addUnseen st ev).prevs_keys := rfl

theorem processEvent_children (st : TrackState) (ev : Event) (b : String) :
    (processEvent st ev).unseen_to_child_events b =
      if b = ev.event_id then ∅ else (addUnseen st ev).unseen_to_child_events b := rfl

theorem processEvent_prevs (st : TrackState) (ev : Event)
    (hb : ∀ a b, b ∈ st.event_to_unseen_prevs a ↔ a ∈ st.unseen_to_child_events b)
    (h0 : st.event_to_unseen_prevs ev.event_id = ∅) (a : String) :
    (processEvent st ev).event_to_unseen_prevs a =
      ((addUnseen st ev).event_to_unseen_prevs a).erase ev.event_id := by
  show (resolveChildren (addUnseen st ev) ev).event_to_unseen_prevs a = _
  exact resolveChildren_prevs (addUnseen st ev) ev (addUnseen_bidir st ev hb h0) a

theorem finset_sdiff_erase (s t : Finset String) (x : String) :
    (s \ t).erase x = s \ insert x t := by
  ext y
  simp only [Finset.mem_erase, Finset.mem_sdiff, Finset.mem_insert]
  tauto

theorem goodState_step (L : List Event) (st : TrackState) (ev : Event)
    (hg : GoodState L st) (hfresh : ev.event_id ∉ L.map Event.event_id) :
    GoodState (L ++ [ev]) (processEvent st ev) := by
  have h0 : st.event_to_unseen_prevs ev.event_id = ∅ := hg.prevs_unprocessed _ hfresh
  have hb1 := addUnseen_bidir st ev hg.bidir h0
  constructor
  · rw [processEvent_written, hg.written_eq]
    ext y
    simp only [Finset.mem_insert, List.mem_toFinset, List.map_append, List.mem_append,
      List.map_cons, List.map_nil, List.mem_cons, List.not_mem_nil, or_false]
    tauto
  · intro a b
    rw [processEvent_prevs st ev hg.bidir h0 a, Finset.mem_erase, processEvent_children]
    by_cases hbe : b = ev.event_id
    · subst hbe
      simp
    · rw [if_neg hbe]
      rw [hb1 a b]
      simp [hbe]
  · intro e he
    rw [processEvent_written]
    rcases List.mem_append.mp he with heL | heV
    · have hne : e.event_id ≠ ev.event_id := by
        intro h
        exact hfresh (h ▸ List.mem_map_of_mem Event.event_id heL)
      rw [processEvent_prevs st ev hg.bidir h0 e.event_id, addUnseen_prevs_ne st ev hne,
        hg.prevs_eq e heL, finset_sdiff_erase]
    · have heq : e = ev := by simpa using heV
      rw [heq, processEvent_prevs st ev hg.bidir h0 ev.event_id,
        addUnseen_prevs_self st ev h0, finset_sdiff_erase]
  · intro x hx
    simp only [List.map_append, List.mem_append, List.map_cons, List.map_nil,
      List.mem_cons, List.not_mem_nil, or_false, not_or] at hx
    rw [processEvent_prevs st ev hg.bidir h0 x, addUnseen_prevs_ne st ev hx.2,
      hg.prevs_unprocessed x hx.1]
    simp
  · intro x hx
    rw [processEvent_keys]
    rw [processEvent_prevs st ev hg.bidir h0 x] at hx
    have h1 : (addUnseen st ev).event_to_unseen_prevs x ≠ ∅ := by
      intro h2
      rw [h2] at hx
      simp at hx
    by_cases hxe : x = ev.event_id
    · subst hxe
      rw [addUnseen_prevs_self st ev h0] at h1
      exact addUnseen_keys_self st ev h1
    · rw [addUnseen_prevs_ne st ev hxe] at h1
      exact addUnseen_keys_superset st ev x (hg.keys_complete x h1)

theorem processEvents_append (st : TrackState) (l1 l2 : List Event) :
    processEvents st (l1 ++ l2) = processEvents (processEvents st l1) l2 := by
  unfold processEvents
  exact List.foldl_append _ _ _ _

theorem goodState_nil : GoodState [] initTrackState := by
  constructor
  · simp [initTrackState]
  · intro a b
    simp [initTrackState]
  · intro e he
    exact absurd he (List.not_mem_nil e)
  · intro x _
    rfl
  · intro x hx
    exact absurd rfl hx

theorem processEvents_goodState :
    ∀ L : List Event, (L.map Event.event_id).Nodup →
      GoodState L (processEvents initTrackState L) := by
  intro L
  induction L using List.reverseRecOn with
  | nil =>
    intro _
    exact goodState_nil
  | append_singleton l ev ih =>
    intro hn
    rw [List.map_append] at hn
    have h1 : (l.map Event.event_id).Nodup := hn.of_append_left
    have h2 : ev.event_id ∉ l.map Event.event_id := by
      have hd := List.disjoint_of_nodup_append hn
      intro hmem
      exact hd hmem (by simp)
    rw [processEvents_append]
    exact goodState_step l (processEvents initTrackState l) ev (ih h1) h2

/-! ### Characterising a whole traversal -/

theorem mem_so_le_getLast :
    ∀ (l : List Event) (h : l ≠ [])
      (_ : l.Pairwise (fun a b => a.stream_ordering < b.stream_ordering)) (e : Event),
      e ∈ l → e.stream_ordering ≤ (l.getLast h).stream_ordering := by
  intro l
  induction l with
  | nil =>
    intro h
    exact absurd rfl h
  | cons a t ih =>
    intro h hp e he
    cases t with
    | nil =>
      rcases List.mem_cons.mp he with rfl | h'
      · exact Nat.le_refl _
      · exact absurd h' (List.not_mem_nil e)
    | cons b t2 =>
      rw [List.getLast_cons (List.cons_ne_nil b t2)]
      rcases List.mem_cons.mp he with rfl | h'
      · have hlt := (List.pairwise_cons.mp hp).1
        exact Nat.le_of_lt (hlt _ (List.getLast_mem (List.cons_ne_nil b t2)))
      · exact ih (List.cons_ne_nil b t2) (List.pairwise_cons.mp hp).2 e h'

theorem paginate_eq (tl : List Event) (fromK toK limit : Nat) :
    paginate_room_events tl fromK toK limit =
      (tl.filter (inWindow fromK toK)).take limit := rfl

theorem paginationLoop_decompose (tl : List Event) (vis : Event → Bool) (toK : Nat)
    (hs : tl.Pairwise (fun a b => a.stream_ordering < b.stream_ordering))
    (hn : (tl.map Event.event_id).Nodup) :
    ∀ (fuel fromK : Nat) (st : TrackState) (trace : List (List Event)),
      ∃ D : List (List Event),
        (paginationLoop tl vis toK fuel fromK st trace).1 = processEvents st D.flatten ∧
        (paginationLoop tl vis toK fuel fromK st trace).2.1 = trace ++ D ∧
        (∀ e, e ∈ D.flatten → e ∈ tl ∧ fromK < e.stream_ordering ∧ vis e = true) ∧
        (D.flatten.map Event.event_id).Nodup := by
  intro fuel
  induction fuel with
  | zero =>
    intro fromK st trace
    refine ⟨[], rfl, by simp [paginationLoop_zero], ?_, by simp⟩
    intro e he
    exact absurd he (by simp)
  | succ n ih =>
    intro fromK st trace
    by_cases hp : paginate_room_events tl fromK toK 100 = []
    · refine ⟨[], ?_, ?_, ?_, by simp⟩
      · rw [paginationLoop_succ, dif_pos hp]
        rfl
      · rw [paginationLoop_succ, dif_pos hp]
        simp
      · intro e he
        exact absurd he (by simp)
    · obtain ⟨D', hst, htr, hmem, hnd⟩ :=
        ih ((paginate_room_events tl fromK toK 100).getLast hp).stream_ordering
          (processEvents st ((paginate_room_events tl fromK toK 100).filter vis))
          (trace ++ [(paginate_room_events tl fromK toK 100).filter vis])
      refine ⟨(paginate_room_events tl fromK toK 100).filter vis :: D', ?_, ?_, ?_, ?_⟩
      · rw [paginationLoop_succ, dif_neg hp, hst,
          show ((paginate_room_events tl fromK toK 100).filter vis :: D').flatten =
            (paginate_room_events tl fromK toK 100).filter vis ++ D'.flatten from rfl,
          processEvents_append]
      · rw [paginationLoop_succ, dif_neg hp, htr, List.append_assoc]
        rfl
      · intro e he
        rw [show ((paginate_room_events tl fromK toK 100).filter vis :: D').flatten =
          (paginate_room_events tl fromK toK 100).filter vis ++ D'.flatten from rfl] at he
        rcases List.mem_append.mp he with h1 | h2
        · have h3 := List.mem_filter.mp h1
          have h4 := mem_paginate h3.1
          exact ⟨h4.1, h4.2.1, h3.2⟩
        · have h5 := hmem e h2
          have h6 := mem_paginate (List.getLast_mem hp)
          exact ⟨h5.1, Nat.lt_trans h6.2.1 h5.2.1, h5.2.2⟩
      · rw [show ((paginate_room_events tl fromK toK 100).filter vis :: D').flatten =
          (paginate_room_events tl fromK toK 100).filter vis ++ D'.flatten from rfl,
          List.map_append]
        have hsubpage : List.Sublist (paginate_room_events tl fromK toK 100)
            (tl.filter (inWindow fromK toK)) := by
          rw [paginate_eq]
          exact List.take_sublist _ _
        have hsub1 : List.Sublist ((paginate_room_events tl fromK toK 100).filter vis) tl :=
          (List.filter_sublist _).trans (hsubpage.trans (List.filter_sublist _))
        apply List.Nodup.append
        · exact hn.sublist (hsub1.map Event.event_id)
        · exact hnd
        · intro x hx1 hx2
          obtain ⟨e, he, hex⟩ := List.mem_map.mp hx1
          obtain ⟨f, hf, hfx⟩ := List.mem_map.mp hx2
          have heP : e ∈ paginate_room_events tl fromK toK 100 := (List.mem_filter.mp he).1
          have hePt : e ∈ tl := (mem_paginate heP).1
          have hfT := hmem f hf
          have hpw : (paginate_room_events tl fromK toK 100).Pairwise
              (fun a b => a.stream_ordering < b.stream_ordering) :=
            hs.sublist (hsubpage.trans (List.filter_sublist _))
          have hle := mem_so_le_getLast (paginate_room_events tl fromK toK 100) hp hpw e heP
          have hef : e = f := List.inj_on_of_nodup_map hn hePt hfT.1 (hex.trans hfx.symm)
          rw [hef] at hle
          have := hfT.2.1
          omega

/-- C9: throughout a room's traversal — that is, after processing any
prefix `L` of the delivered (filtered) event sequence, which is exactly
the state reached after each event of each filtered page — the two
tracking maps satisfy the bidirectional invariant:
`u ∈ event_to_unseen_prevs[e]` iff `e ∈ unseen_to_child_events[u]`
(an absent key standing for the empty set). -/
theorem c9_bidirectional_invariant (s : Store) (r : MembershipRecord)
    (hs : (s.timeline r.room_id).Pairwise
      (fun a b => a.stream_ordering < b.stream_ordering))
    (hn : ((s.timeline r.room_id).map Event.event_id).Nodup) :
    ∀ L rest : List Event, (room_traversal s r).2.1.flatten = L ++ rest →
      ∀ a b, b ∈ (processEvents initTrackState L).event_to_unseen_prevs a ↔
        a ∈ (processEvents initTrackState L).unseen_to_child_events b := by
  intro L rest hpre
  obtain ⟨D, hst, htr, hmem, hnd⟩ :=
    paginationLoop_decompose (s.timeline r.room_id) s.vis (room_to_key s r) hs hn
      (windowCount (s.timeline r.room_id) 0 (room_to_key s r) + 1) 0 initTrackState []
  have htr2 : (room_traversal s r).2.1 = D := by simpa using htr
  rw [htr2] at hpre
  have hLdn : (L.map Event.event_id).Nodup := by
    rw [hpre, List.map_append] at hnd
    exact hnd.of_append_left
  exact (processEvents_goodState L hLdn).bidir

/-- Witness for C9: in the demo room (`e1` filtered out) the delivered
sequence is `[e2, e3]`; after processing the prefix `[e2]`, `e1` is an
unseen prev of `e2` and `e2` a child of `e1`. -/
theorem c9_witness :
    (room_traversal demoStore demoRoom).2.1.flatten = [demoE2] ++ [demoE3] ∧
    ("e1" ∈ (processEvents initTrackState [demoE2]).event_to_unseen_prevs "e2" ↔
      "e2" ∈ (processEvents initTrackState [demoE2]).unseen_to_child_events "e1") :=
  ⟨by decide,
    c9_bidirectional_invariant demoStore demoRoom (by decide) (by decide)
      [demoE2] [demoE3] (by decide) "e2" "e1"⟩

/-- C1: for a traversed room, the set of event ids for which
`write_state` is called is exactly the set of ids of delivered
(filtered) events whose prev-event set is not contained in the set of
event ids written to the sink at loop end — regardless of whether a
missing predecessor lay outside the fetched window or was dropped by
the visibility filter. -/
theorem c1_write_state_extremities (s : Store) (r : MembershipRecord)
    (hforget : s.did_forget r.room_id = false)
    (hbeen : r.room_id ∈ s.rooms_user_has_been_in)
    (hs : (s.timeline r.room_id).Pairwise
      (fun a b => a.stream_ordering < b.stream_ordering))
    (hn : ((s.timeline r.room_id).map Event.event_id).Nodup) :
    export_room s r = Except.ok (traversal_calls s r) ∧
    ∀ x : String,
      (∃ stm, SinkCall.write_state r.room_id x stm ∈ traversal_calls s r) ↔
      ∃ e, e ∈ (room_traversal s r).2.1.flatten ∧ e.event_id = x ∧
        ¬ e.prev_event_ids.toFinset ⊆
          ((room_traversal s r).2.1.flatten.map Event.event_id).toFinset := by
  constructor
  · simp [export_room, hforget, hbeen]
  · obtain ⟨D, hst, htr, hmem, hnd⟩ :=
      paginationLoop_decompose (s.timeline r.room_id) s.vis (room_to_key s r) hs hn
        (windowCount (s.timeline r.room_id) 0 (room_to_key s r) + 1) 0 initTrackState []
    have htr2 : (room_traversal s r).2.1 = D := by simpa using htr
    have hst2 : (room_traversal s r).1 = processEvents initTrackState D.flatten := hst
    intro x
    have hG := processEvents_goodState D.flatten hnd
    have h1 : (∃ stm, SinkCall.write_state r.room_id x stm ∈ traversal_calls s r) ↔
        x ∈ extremityIds (room_traversal s r).1 := by
      constructor
      · rintro ⟨stm, hc⟩
        unfold traversal_calls at hc
        rcases List.mem_append.mp hc with h | h
        · obtain ⟨evs, _, heq⟩ := List.mem_map.mp h
          exact absurd heq (by simp)
        · obtain ⟨i, hi, heq⟩ := List.mem_map.mp h
          have hix : i = x := by
            simp only [SinkCall.write_state.injEq] at heq
            exact heq.2.1
          exact hix ▸ hi
      · intro hx
        exact ⟨s.state_for_event x,
          List.mem_append_right _ (List.mem_map.mpr ⟨x, hx, rfl⟩)⟩
    rw [h1, hst2, htr2]
    unfold extremityIds
    rw [List.mem_filter]
    simp only [decide_eq_true_eq]
    constructor
    · rintro ⟨_, hne⟩
      have hxid : x ∈ D.flatten.map Event.event_id := by
        by_contra hco
        exact hne (hG.prevs_unprocessed x hco)
      obtain ⟨e, he, heid⟩ := List.mem_map.mp hxid
      refine ⟨e, he, heid, ?_⟩
      intro hsub
      apply hne
      rw [← heid, hG.prevs_eq e he, hG.written_eq]
      exact Finset.sdiff_eq_empty_iff_subset.mpr hsub
    · rintro ⟨e, he, heid, hnsub⟩
      have hne : (processEvents initTrackState D.flatten).event_to_unseen_prevs x ≠ ∅ := by
        rw [← heid, hG.prevs_eq e he, hG.written_eq]
        intro h2
        exact hnsub (Finset.sdiff_eq_empty_iff_subset.mp h2)
      exact ⟨hG.keys_complete x hne, hne⟩

/-- Witness for C1: in the demo room, `e2` (whose prev `e1` was
filtered out) gets a `write_state` call, matching the characterisation. -/
theorem c1_witness :
    demoStore.did_forget "r1" = false ∧
    ((∃ stm, SinkCall.write_state demoRoom.room_id "e2" stm ∈
        traversal_calls demoStore demoRoom) ↔
      ∃ e, e ∈ (room_traversal demoStore demoRoom).2.1.flatten ∧ e.event_id = "e2" ∧
        ¬ e.prev_event_ids.toFinset ⊆
          ((room_traversal demoStore demoRoom).2.1.flatten.map Event.event_id).toFinset) :=
  ⟨rfl,
    (c1_write_state_extremities demoStore demoRoom rfl (by decide) (by decide)
      (by decide)).2 "e2"⟩

/-- Witness for C10's universally quantified part at a concrete
one-event page. -/
theorem c10_witness :
    (paginationLoop [demoE1] emptyVisStore.vis 5 (0 + 1) 0 initTrackState [] =
      paginationLoop [demoE1] emptyVisStore.vis 5 0 demoE1.stream_ordering
        (processEvents initTrackState
          ((paginate_room_events [demoE1] 0 5 100).filter emptyVisStore.vis))
        ([] ++ [(paginate_room_events [demoE1] 0 5 100).filter emptyVisStore.vis])) ∧
    windowCount [demoE1] demoE1.stream_ordering 5 < windowCount [demoE1] 0 5 :=
  c10_write_events_even_empty.1 [demoE1] emptyVisStore.vis 5 0 0 initTrackState [] demoE1
    (by decide)

end Synapse
